import Mathlib

/-!
A verification development for `recycle::resource_pool` (src/recycle/resource_pool.hpp).

The pool is modelled as an explicit state, and each member function of
`resource_pool::impl`, of the custom `deleter` and of the control-block
allocator `SimpleAllocator` is translated into a pure state-transition
function.  Conventions of the embedding:

* The two `std::vector`s (`m_free_vector`, the Free List, and
  `m_free_vector_control_blocks`, the Bookkeeping Cache) are modelled as
  Lean `List`s whose HEAD is the vector's BACK: `push_back` is `::`,
  `back`/`pop_back` are `head`/`tail`.  The reserved vector capacity is
  modelled as exactly the configured pool capacity (both vectors are
  `reserve`d to it on construction and the `size < capacity` guards keep
  them from ever growing past it).
* Resources and control blocks are identified by numeric ids; `nextRid` /
  `nextBid` model the allocation function producing a fresh resource and
  `std::malloc` producing a fresh block.
* Instrumentation counters (`allocCalls`, `recycleCalls`, `mallocCalls`,
  `freeCalls`, `releasedHandles`) count, for one pool instance, the
  invocations of the user allocation function, of the user recycle
  function, of `std::malloc` / `std::free` on control blocks, and the
  number of handles whose last owning reference was dropped.
* The user recycle function is observed for side effects only
  (its C++ type is `void(value_ptr)`), so it is modelled by the presence
  flag `hasRecycle` plus the `recycleCalls` counter.
-/

namespace Recycle

/-- A live handle issued by `allocate()`: the id of the resource it wraps and
the id of the control block holding its shared-ownership metadata. -/
structure Handle where
  rid : Nat
  bid : Nat
deriving DecidableEq

/-- The state of one `resource_pool::impl` instance (resource_pool.hpp,
lines 157-384), together with the instrumentation counters described in the
file header. -/
structure PoolState where
  /-- the reserved capacity of both vectors (`reserve(capacity)`, lines 164-165) -/
  capacity : Nat
  /-- whether a recycle function was supplied (`m_recycle`, line 370) -/
  hasRecycle : Bool
  /-- `m_free_vector` (line 373); head = vector back -/
  freeVector : List Nat
  /-- `m_free_vector_control_blocks` (line 375); head = vector back -/
  cacheBlocks : List Nat
  /-- the outstanding handles; head = most recently issued -/
  live : List Handle
  /-- id source for the allocation function -/
  nextRid : Nat
  /-- id source for `std::malloc` of control blocks -/
  nextBid : Nat
  /-- number of invocations of `m_allocate` -/
  allocCalls : Nat
  /-- number of invocations of `m_recycle` -/
  recycleCalls : Nat
  /-- number of `std::malloc` calls for control blocks -/
  mallocCalls : Nat
  /-- number of `std::free` calls on control blocks -/
  freeCalls : Nat
  /-- number of handles fully released while the pool was alive -/
  releasedHandles : Nat
deriving DecidableEq

/-- A freshly constructed pool (`impl::impl`, lines 160-178): both vectors
empty, capacity reserved. -/
def initPool (capacity : Nat) (hasRecycle : Bool) : PoolState :=
  ⟨capacity, hasRecycle, [], [], [], 0, 0, 0, 0, 0, 0, 0⟩

/-- Result of `SimpleAllocator<T>::allocate` (lines 330-342): the block
handed out, the cache contents afterwards, and whether `std::malloc` ran. -/
structure BlockAlloc where
  bid : Nat
  cacheAfter : List Nat
  didMalloc : Bool
deriving DecidableEq

/-- `SimpleAllocator<T>::allocate` (lines 330-342): when the allocator was
constructed with `should_take_cached` and the cache is non-empty, pop the
cached block from the back; otherwise call `std::malloc`. -/
def simpleAllocatorAllocate (shouldTakeCached : Bool) (cache : List Nat)
    (nextBid : Nat) : BlockAlloc :=
  match shouldTakeCached, cache with
  | true, b :: rest => ⟨b, rest, false⟩
  | true, [] => ⟨nextBid, [], true⟩
  | false, c => ⟨nextBid, c, true⟩

/-- Result of `SimpleAllocator<T>::deallocate` (lines 344-359): the cache
contents afterwards and the `shouldFree` flag deciding the `std::free`. -/
structure BlockDealloc where
  cacheAfter : List Nat
  shouldFree : Bool
deriving DecidableEq

/-- `SimpleAllocator<T>::deallocate` (lines 344-359): under the pool lock,
push the block back to the cache if the cache is below its reserved
capacity; otherwise release it with `std::free`. -/
def simpleAllocatorDeallocate (cache : List Nat) (capacity : Nat)
    (bid : Nat) : BlockDealloc :=
  if cache.length < capacity then ⟨bid :: cache, false⟩ else ⟨cache, true⟩

/-- `impl::allocate` (lines 231-276).  If the Free List is non-empty, pop
its back and build the handle's control block through
`SimpleAllocator(should_take_cached = true, ...)` (line 247); otherwise
invoke `m_allocate` and build the control block through
`SimpleAllocator(should_take_cached = false, ...)` (lines 251-257), which
always calls `std::malloc`. -/
def allocateStep (s : PoolState) : PoolState :=
  match s.freeVector with
  | r :: rest =>
    let ba := simpleAllocatorAllocate true s.cacheBlocks s.nextBid
    { s with freeVector := rest, cacheBlocks := ba.cacheAfter,
             live := ⟨r, ba.bid⟩ :: s.live,
             nextBid := if ba.didMalloc then s.nextBid + 1 else s.nextBid,
             mallocCalls := if ba.didMalloc then s.mallocCalls + 1 else s.mallocCalls }
  | [] =>
    let ba := simpleAllocatorAllocate false s.cacheBlocks s.nextBid
    { s with cacheBlocks := ba.cacheAfter,
             live := ⟨s.nextRid, ba.bid⟩ :: s.live,
             nextRid := s.nextRid + 1,
             allocCalls := s.allocCalls + 1,
             nextBid := if ba.didMalloc then s.nextBid + 1 else s.nextBid,
             mallocCalls := if ba.didMalloc then s.mallocCalls + 1 else s.mallocCalls }

/-- First half of `impl::recycle` (lines 299-302): if a recycle function was
supplied, invoke it (modelled by the `recycleCalls` counter), without
holding the pool lock. -/
def recycleInvoke (s : PoolState) : PoolState :=
  if s.hasRecycle then { s with recycleCalls := s.recycleCalls + 1 } else s

/-- Second half of `impl::recycle` (lines 304-306): under the lock, push the
resource back onto the Free List if it is below its reserved capacity;
otherwise the resource is simply dropped. -/
def recyclePush (s : PoolState) (rid : Nat) : PoolState :=
  if s.freeVector.length < s.capacity then
    { s with freeVector := rid :: s.freeVector }
  else s

/-- `impl::recycle` (lines 297-307): first the user recycle callback, then
the capacity-checked push. -/
def recycleStep (s : PoolState) (rid : Nat) : PoolState :=
  recyclePush (recycleInvoke s) rid

/-- The control-block deallocation performed through the `SimpleAllocator`
copy stored in the handle's control block, applied to the pool state. -/
def deallocBlock (s : PoolState) (bid : Nat) : PoolState :=
  let d := simpleAllocatorDeallocate s.cacheBlocks s.capacity bid
  { s with cacheBlocks := d.cacheAfter,
           freeCalls := if d.shouldFree then s.freeCalls + 1 else s.freeCalls }

/-- Full release of a handle's last owning reference while the pool is
alive: `deleter::operator()` (lines 404-470) upgrades the weak back
reference, calls `impl::recycle`, resets its strong resource reference, and
then the `std::shared_ptr` machinery destroys the control block through
`SimpleAllocator::deallocate`. -/
def releaseStep (s : PoolState) (h : Handle) : PoolState :=
  let s1 := deallocBlock (recycleStep s h.rid) h.bid
  { s1 with releasedHandles := s1.releasedHandles + 1 }

/-- Drop the last owning reference of the `i`-th outstanding handle (no
transition when there is no such handle). -/
def dropStep (s : PoolState) (i : Nat) : PoolState :=
  match s.live[i]? with
  | some h => releaseStep { s with live := s.live.eraseIdx i } h
  | none => s

/-- `impl::free_unused` (lines 279-286): under the lock, clear the Free List
and `std::free` every cached control block. -/
def freeUnusedStep (s : PoolState) : PoolState :=
  { s with freeVector := [],
           freeCalls := s.freeCalls + s.cacheBlocks.length,
           cacheBlocks := [] }

/-- `impl::unused_resources` (lines 289-293): the Free List length. -/
def unusedResources (s : PoolState) : Nat :=
  s.freeVector.length

/-- `impl::impl(const impl&)` (lines 180-193): the copy reads
`other.unused_resources()` into a `uint32_t` (truncating modulo `2 ^ 32`)
and pushes that many freshly allocated resources into its own Free List;
its Bookkeeping Cache starts empty and it has no outstanding handles.  The
copy's instrumentation counters count events of the copy's own lifetime, so
`allocCalls` records exactly the `m_allocate` invocations made by the copy
constructor itself. -/
def copyImpl (s : PoolState) : PoolState :=
  { capacity := s.capacity,
    hasRecycle := s.hasRecycle,
    freeVector := ((List.range (unusedResources s % 2 ^ 32)).map
      (fun i => s.nextRid + i)).reverse,
    cacheBlocks := [],
    live := [],
    nextRid := s.nextRid + unusedResources s % 2 ^ 32,
    nextBid := 0,
    allocCalls := unusedResources s % 2 ^ 32,
    recycleCalls := 0,
    mallocCalls := 0,
    freeCalls := 0,
    releasedHandles := 0 }

/-- `impl::allocate` with a fallible allocation function.  The Boolean
result is `false` when the allocation function signalled failure, which
propagates out of `allocate()`.  On the Free List hit path `m_allocate` is
never invoked; on the miss path the locked block only read the Free List
size before `m_allocate()` runs (lines 238-254), so when it fails the pool
state the caller observes is exactly the state before the call. -/
def allocateStepFallible (allocFails : Bool) (s : PoolState) :
    PoolState × Bool :=
  match s.freeVector with
  | _ :: _ => (allocateStep s, true)
  | [] => if allocFails then (s, false) else (allocateStep s, true)

/-- What the release path does when the pool is already destroyed. -/
structure DeadRelease where
  /-- whether `pool->recycle` was called -/
  recycleAttempted : Bool
  /-- whether the resource itself was destroyed -/
  resourceDestroyed : Bool
  /-- the contents the code writes into the destroyed pool's
  `m_free_vector_control_blocks` memory -/
  deadCacheAfter : List Nat
  /-- whether the handle's control block was passed to `std::free` -/
  blockFreed : Bool
deriving DecidableEq

/-- Release of a handle's last owning reference after the pool has been
destroyed.  `deleter::operator()` (lines 404-470) fails to upgrade the weak
back reference, so no recycling is attempted, and `m_resource.reset()`
(line 469) destroys the resource.  Afterwards the `std::shared_ptr`
machinery still destroys the handle's control block through the stored
`SimpleAllocator` copy, whose `deallocate` (lines 344-359) reads and writes
`m_free_vector_control_blocks` and locks `m_mutex` through its stored
references into the destroyed `impl`, with no liveness check of any kind.
`deadCache` and `deadCap` stand for the size and capacity that destroyed
vector memory still reads back. -/
def releaseAfterPoolDeath (deadCache : List Nat) (deadCap : Nat)
    (h : Handle) : DeadRelease :=
  let d := simpleAllocatorDeallocate deadCache deadCap h.bid
  { recycleAttempted := false,
    resourceDestroyed := true,
    deadCacheAfter := d.cacheAfter,
    blockFreed := d.shouldFree }

/-- The operations a client can perform on one pool. -/
inductive Op where
  | alloc : Op
  | drop : Nat → Op
  | freeUnused : Op
deriving DecidableEq

/-- One client operation. -/
def step (s : PoolState) : Op → PoolState
  | Op.alloc => allocateStep s
  | Op.drop i => dropStep s i
  | Op.freeUnused => freeUnusedStep s

/-- Run a sequence of client operations. -/
def run (s : PoolState) (ops : List Op) : PoolState :=
  ops.foldl step s

/-- The pool state reached from a fresh pool by a sequence of operations. -/
def poolAfter (capacity : Nat) (hasRecycle : Bool) (ops : List Op) : PoolState :=
  run (initPool capacity hasRecycle) ops

theorem run_cons (s : PoolState) (op : Op) (ops : List Op) :
    run s (op :: ops) = run (step s op) ops := rfl

theorem run_append (s : PoolState) (ops1 ops2 : List Op) :
    run s (ops1 ++ ops2) = run (run s ops1) ops2 := by
  simp [run, List.foldl_append]

theorem run_preserve {P : PoolState → Prop}
    (hstep : ∀ s op, P s → P (step s op)) :
    ∀ (ops : List Op) (s : PoolState), P s → P (run s ops) := by
  intro ops
  induction ops with
  | nil => intro s hP; exact hP
  | cons op ops ih =>
    intro s hP
    exact ih (step s op) (hstep s op hP)

theorem recycleInvoke_capacity (s : PoolState) :
    (recycleInvoke s).capacity = s.capacity := by
  unfold recycleInvoke; split <;> rfl

theorem recycleInvoke_freeVector (s : PoolState) :
    (recycleInvoke s).freeVector = s.freeVector := by
  unfold recycleInvoke; split <;> rfl

theorem recycleInvoke_cacheBlocks (s : PoolState) :
    (recycleInvoke s).cacheBlocks = s.cacheBlocks := by
  unfold recycleInvoke; split <;> rfl

theorem recycleInvoke_live (s : PoolState) :
    (recycleInvoke s).live = s.live := by
  unfold recycleInvoke; split <;> rfl

theorem recycleInvoke_hasRecycle (s : PoolState) :
    (recycleInvoke s).hasRecycle = s.hasRecycle := by
  unfold recycleInvoke; split <;> rfl

theorem recycleInvoke_freeCalls (s : PoolState) :
    (recycleInvoke s).freeCalls = s.freeCalls := by
  unfold recycleInvoke; split <;> rfl

theorem recycleInvoke_releasedHandles (s : PoolState) :
    (recycleInvoke s).releasedHandles = s.releasedHandles := by
  unfold recycleInvoke; split <;> rfl

theorem recycleInvoke_recycleCalls_of_hasRecycle (s : PoolState)
    (h : s.hasRecycle = true) :
    (recycleInvoke s).recycleCalls = s.recycleCalls + 1 := by
  unfold recycleInvoke
  simp [h]

theorem recyclePush_capacity (s : PoolState) (rid : Nat) :
    (recyclePush s rid).capacity = s.capacity := by
  unfold recyclePush; split <;> rfl

theorem recyclePush_cacheBlocks (s : PoolState) (rid : Nat) :
    (recyclePush s rid).cacheBlocks = s.cacheBlocks := by
  unfold recyclePush; split <;> rfl

theorem recyclePush_live (s : PoolState) (rid : Nat) :
    (recyclePush s rid).live = s.live := by
  unfold recyclePush; split <;> rfl

theorem recyclePush_hasRecycle (s : PoolState) (rid : Nat) :
    (recyclePush s rid).hasRecycle = s.hasRecycle := by
  unfold recyclePush; split <;> rfl

theorem recyclePush_freeCalls (s : PoolState) (rid : Nat) :
    (recyclePush s rid).freeCalls = s.freeCalls := by
  unfold recyclePush; split <;> rfl

theorem recyclePush_releasedHandles (s : PoolState) (rid : Nat) :
    (recyclePush s rid).releasedHandles = s.releasedHandles := by
  unfold recyclePush; split <;> rfl

theorem recyclePush_recycleCalls (s : PoolState) (rid : Nat) :
    (recyclePush s rid).recycleCalls = s.recycleCalls := by
  unfold recyclePush; split <;> rfl

theorem recyclePush_freeVector (s : PoolState) (rid : Nat) :
    (recyclePush s rid).freeVector =
      if s.freeVector.length < s.capacity then rid :: s.freeVector
      else s.freeVector := by
  unfold recyclePush; split <;> simp_all

theorem deallocBlock_capacity (s : PoolState) (bid : Nat) :
    (deallocBlock s bid).capacity = s.capacity := by
  unfold deallocBlock simpleAllocatorDeallocate; split <;> rfl

theorem deallocBlock_freeVector (s : PoolState) (bid : Nat) :
    (deallocBlock s bid).freeVector = s.freeVector := by
  unfold deallocBlock simpleAllocatorDeallocate; split <;> rfl

theorem deallocBlock_live (s : PoolState) (bid : Nat) :
    (deallocBlock s bid).live = s.live := by
  unfold deallocBlock simpleAllocatorDeallocate; split <;> rfl

theorem deallocBlock_hasRecycle (s : PoolState) (bid : Nat) :
    (deallocBlock s bid).hasRecycle = s.hasRecycle := by
  unfold deallocBlock simpleAllocatorDeallocate; split <;> rfl

theorem deallocBlock_recycleCalls (s : PoolState) (bid : Nat) :
    (deallocBlock s bid).recycleCalls = s.recycleCalls := by
  unfold deallocBlock simpleAllocatorDeallocate; split <;> rfl

theorem deallocBlock_releasedHandles (s : PoolState) (bid : Nat) :
    (deallocBlock s bid).releasedHandles = s.releasedHandles := by
  unfold deallocBlock simpleAllocatorDeallocate; split <;> rfl

theorem deallocBlock_cacheBlocks (s : PoolState) (bid : Nat) :
    (deallocBlock s bid).cacheBlocks =
      if s.cacheBlocks.length < s.capacity then bid :: s.cacheBlocks
      else s.cacheBlocks := by
  unfold deallocBlock simpleAllocatorDeallocate; split <;> simp_all

theorem deallocBlock_freeCalls (s : PoolState) (bid : Nat) :
    (deallocBlock s bid).freeCalls =
      if s.cacheBlocks.length < s.capacity then s.freeCalls
      else s.freeCalls + 1 := by
  unfold deallocBlock simpleAllocatorDeallocate; split <;> simp_all

theorem releaseStep_capacity (s : PoolState) (h : Handle) :
    (releaseStep s h).capacity = s.capacity := by
  unfold releaseStep recycleStep
  simp [deallocBlock_capacity, recyclePush_capacity, recycleInvoke_capacity]

theorem releaseStep_live (s : PoolState) (h : Handle) :
    (releaseStep s h).live = s.live := by
  unfold releaseStep recycleStep
  simp [deallocBlock_live, recyclePush_live, recycleInvoke_live]

theorem releaseStep_hasRecycle (s : PoolState) (h : Handle) :
    (releaseStep s h).hasRecycle = s.hasRecycle := by
  unfold releaseStep recycleStep
  simp [deallocBlock_hasRecycle, recyclePush_hasRecycle, recycleInvoke_hasRecycle]

theorem releaseStep_freeVector (s : PoolState) (h : Handle) :
    (releaseStep s h).freeVector =
      if s.freeVector.length < s.capacity then h.rid :: s.freeVector
      else s.freeVector := by
  unfold releaseStep recycleStep
  simp [deallocBlock_freeVector, recyclePush_freeVector,
    recycleInvoke_freeVector, recycleInvoke_capacity]

theorem releaseStep_cacheBlocks (s : PoolState) (h : Handle) :
    (releaseStep s h).cacheBlocks =
      if s.cacheBlocks.length < s.capacity then h.bid :: s.cacheBlocks
      else s.cacheBlocks := by
  unfold releaseStep recycleStep
  simp [deallocBlock_cacheBlocks, recyclePush_cacheBlocks, recyclePush_capacity,
    recycleInvoke_cacheBlocks, recycleInvoke_capacity]

theorem releaseStep_freeCalls (s : PoolState) (h : Handle) :
    (releaseStep s h).freeCalls =
      if s.cacheBlocks.length < s.capacity then s.freeCalls
      else s.freeCalls + 1 := by
  unfold releaseStep recycleStep
  simp [deallocBlock_freeCalls, recyclePush_cacheBlocks, recyclePush_capacity,
    recyclePush_freeCalls, recycleInvoke_cacheBlocks, recycleInvoke_capacity,
    recycleInvoke_freeCalls]

theorem releaseStep_releasedHandles (s : PoolState) (h : Handle) :
    (releaseStep s h).releasedHandles = s.releasedHandles + 1 := by
  unfold releaseStep recycleStep
  simp [deallocBlock_releasedHandles, recyclePush_releasedHandles,
    recycleInvoke_releasedHandles]

theorem releaseStep_recycleCalls_of_hasRecycle (s : PoolState) (h : Handle)
    (hr : s.hasRecycle = true) :
    (releaseStep s h).recycleCalls = s.recycleCalls + 1 := by
  unfold releaseStep recycleStep
  simp [deallocBlock_recycleCalls, recyclePush_recycleCalls,
    recycleInvoke_recycleCalls_of_hasRecycle s hr]

theorem recycleInvoke_allocCalls (s : PoolState) :
    (recycleInvoke s).allocCalls = s.allocCalls := by
  unfold recycleInvoke; split <;> rfl

theorem recyclePush_allocCalls (s : PoolState) (rid : Nat) :
    (recyclePush s rid).allocCalls = s.allocCalls := by
  unfold recyclePush; split <;> rfl

theorem deallocBlock_allocCalls (s : PoolState) (bid : Nat) :
    (deallocBlock s bid).allocCalls = s.allocCalls := by
  unfold deallocBlock simpleAllocatorDeallocate; split <;> rfl

theorem releaseStep_allocCalls (s : PoolState) (h : Handle) :
    (releaseStep s h).allocCalls = s.allocCalls := by
  unfold releaseStep recycleStep
  simp [deallocBlock_allocCalls, recyclePush_allocCalls,
    recycleInvoke_allocCalls]

theorem allocateStep_of_free_nil (s : PoolState) (h : s.freeVector = []) :
    allocateStep s =
      { s with live := ⟨s.nextRid, s.nextBid⟩ :: s.live,
               nextRid := s.nextRid + 1,
               allocCalls := s.allocCalls + 1,
               nextBid := s.nextBid + 1,
               mallocCalls := s.mallocCalls + 1 } := by
  simp [allocateStep, simpleAllocatorAllocate, h]

theorem allocateStep_of_free_cons_cache_cons (s : PoolState) (r : Nat)
    (rest : List Nat) (b : Nat) (brest : List Nat)
    (hf : s.freeVector = r :: rest) (hc : s.cacheBlocks = b :: brest) :
    allocateStep s =
      { s with freeVector := rest, cacheBlocks := brest,
               live := ⟨r, b⟩ :: s.live } := by
  simp [allocateStep, simpleAllocatorAllocate, hf, hc]

theorem allocateStep_of_free_cons_cache_nil (s : PoolState) (r : Nat)
    (rest : List Nat) (hf : s.freeVector = r :: rest)
    (hc : s.cacheBlocks = []) :
    allocateStep s =
      { s with freeVector := rest,
               live := ⟨r, s.nextBid⟩ :: s.live,
               nextBid := s.nextBid + 1,
               mallocCalls := s.mallocCalls + 1 } := by
  simp [allocateStep, simpleAllocatorAllocate, hf, hc]

theorem dropStep_of_none (s : PoolState) (i : Nat) (hl : s.live[i]? = none) :
    dropStep s i = s := by
  simp [dropStep, hl]

theorem dropStep_of_some (s : PoolState) (i : Nat) (hd : Handle)
    (hl : s.live[i]? = some hd) :
    dropStep s i = releaseStep { s with live := s.live.eraseIdx i } hd := by
  simp [dropStep, hl]

theorem dropStep_zero (s : PoolState) (hd : Handle) (tl : List Handle)
    (hl : s.live = hd :: tl) :
    dropStep s 0 = releaseStep { s with live := tl } hd := by
  simp [dropStep, hl]

theorem step_capacity (s : PoolState) (op : Op) :
    (step s op).capacity = s.capacity := by
  cases op with
  | alloc =>
    cases hf : s.freeVector with
    | nil => rw [step, allocateStep_of_free_nil s hf]
    | cons r rest =>
      cases hc : s.cacheBlocks with
      | nil => rw [step, allocateStep_of_free_cons_cache_nil s r rest hf hc]
      | cons b brest =>
        rw [step, allocateStep_of_free_cons_cache_cons s r rest b brest hf hc]
  | drop i =>
    cases hl : s.live[i]? with
    | none => rw [step, dropStep_of_none s i hl]
    | some hd => rw [step, dropStep_of_some s i hd hl, releaseStep_capacity]
  | freeUnused => rfl

theorem step_hasRecycle (s : PoolState) (op : Op) :
    (step s op).hasRecycle = s.hasRecycle := by
  cases op with
  | alloc =>
    cases hf : s.freeVector with
    | nil => rw [step, allocateStep_of_free_nil s hf]
    | cons r rest =>
      cases hc : s.cacheBlocks with
      | nil => rw [step, allocateStep_of_free_cons_cache_nil s r rest hf hc]
      | cons b brest =>
        rw [step, allocateStep_of_free_cons_cache_cons s r rest b brest hf hc]
  | drop i =>
    cases hl : s.live[i]? with
    | none => rw [step, dropStep_of_none s i hl]
    | some hd => rw [step, dropStep_of_some s i hd hl, releaseStep_hasRecycle]
  | freeUnused => rfl

/-- Each operation keeps the Free List and the Bookkeeping Cache within the
reserved capacity. -/
theorem step_bounds (c : Nat) (s : PoolState) (op : Op)
    (h : s.capacity = c ∧ s.freeVector.length ≤ c ∧
      s.cacheBlocks.length ≤ c) :
    (step s op).capacity = c ∧ (step s op).freeVector.length ≤ c ∧
      (step s op).cacheBlocks.length ≤ c := by
  obtain ⟨hcap, hf, hc⟩ := h
  refine ⟨by rw [step_capacity]; exact hcap, ?_⟩
  cases op with
  | alloc =>
    cases hfv : s.freeVector with
    | nil =>
      rw [step, allocateStep_of_free_nil s hfv]
      exact ⟨hf, hc⟩
    | cons r rest =>
      cases hcb : s.cacheBlocks with
      | nil =>
        rw [step, allocateStep_of_free_cons_cache_nil s r rest hfv hcb]
        refine ⟨?_, hc⟩
        rw [hfv] at hf
        simp only [List.length_cons] at hf
        show rest.length ≤ c
        omega
      | cons b brest =>
        rw [step, allocateStep_of_free_cons_cache_cons s r rest b brest hfv hcb]
        rw [hfv] at hf
        rw [hcb] at hc
        simp only [List.length_cons] at hf hc
        exact ⟨by show rest.length ≤ c; omega, by show brest.length ≤ c; omega⟩
  | drop i =>
    cases hl : s.live[i]? with
    | none => rw [step, dropStep_of_none s i hl]; exact ⟨hf, hc⟩
    | some hd =>
      rw [step, dropStep_of_some s i hd hl, releaseStep_freeVector,
        releaseStep_cacheBlocks]
      dsimp only
      constructor
      · split
        · simp only [List.length_cons]; omega
        · exact hf
      · split
        · simp only [List.length_cons]; omega
        · exact hc
  | freeUnused =>
    rw [step]
    exact ⟨by simp [freeUnusedStep], by simp [freeUnusedStep]⟩

/-- Each operation preserves the key structural invariant of the pool: the
Bookkeeping Cache is never longer than the Free List.  Control blocks enter
the cache only after the paired resource was offered to the Free List, and
the only operation that consumes a Free List entry without consuming a
cache entry is an `allocate` hit on an empty cache. -/
theorem step_cache_le_free (s : PoolState) (op : Op)
    (h : s.cacheBlocks.length ≤ s.freeVector.length) :
    (step s op).cacheBlocks.length ≤ (step s op).freeVector.length := by
  cases op with
  | alloc =>
    cases hfv : s.freeVector with
    | nil =>
      rw [step, allocateStep_of_free_nil s hfv]
      simpa [hfv] using h
    | cons r rest =>
      cases hcb : s.cacheBlocks with
      | nil =>
        rw [step, allocateStep_of_free_cons_cache_nil s r rest hfv hcb]
        simp [hcb]
      | cons b brest =>
        rw [step, allocateStep_of_free_cons_cache_cons s r rest b brest hfv hcb]
        rw [hfv, hcb] at h
        simp at h ⊢
        omega
  | drop i =>
    cases hl : s.live[i]? with
    | none => rw [step, dropStep_of_none s i hl]; exact h
    | some hd =>
      rw [step, dropStep_of_some s i hd hl, releaseStep_freeVector,
        releaseStep_cacheBlocks]
      dsimp only
      split <;> split <;> (try simp only [List.length_cons]) <;> omega
  | freeUnused => rw [step]; simp [freeUnusedStep]

/-- Each operation preserves the recycle-counter bookkeeping: when a
recycle function is installed, the number of its invocations equals the
number of handles fully released. -/
theorem step_recycle_counter (s : PoolState) (op : Op)
    (h : s.hasRecycle = true ∧ s.recycleCalls = s.releasedHandles) :
    (step s op).hasRecycle = true ∧
      (step s op).recycleCalls = (step s op).releasedHandles := by
  obtain ⟨hr, hcount⟩ := h
  refine ⟨by rw [step_hasRecycle]; exact hr, ?_⟩
  cases op with
  | alloc =>
    cases hfv : s.freeVector with
    | nil => rw [step, allocateStep_of_free_nil s hfv]; exact hcount
    | cons r rest =>
      cases hcb : s.cacheBlocks with
      | nil =>
        rw [step, allocateStep_of_free_cons_cache_nil s r rest hfv hcb]
        exact hcount
      | cons b brest =>
        rw [step, allocateStep_of_free_cons_cache_cons s r rest b brest hfv hcb]
        exact hcount
  | drop i =>
    cases hl : s.live[i]? with
    | none => rw [step, dropStep_of_none s i hl]; exact hcount
    | some hd =>
      rw [step, dropStep_of_some s i hd hl,
        releaseStep_recycleCalls_of_hasRecycle
          { s with live := s.live.eraseIdx i } hd hr,
        releaseStep_releasedHandles]
      dsimp only
      omega
  | freeUnused => rw [step]; exact hcount

/-- C1: the claim says that releasing the last owning reference of a Handle
after the pool has been destroyed destroys the Resource directly, with no
recycling attempt and no access to any pool state.  The code does skip the
recycling attempt (the weak back-reference fails to upgrade) and destroys
the Resource, but the control-block deallocation that follows still runs
`SimpleAllocator::deallocate` against the destroyed pool's
`m_free_vector_control_blocks` vector and `m_mutex` through dangling
references: here it writes the handle's block into that freed memory
(`deadCacheAfter = [7]`) and never frees the block (`blockFreed = false`).
This evaluates the code's release-after-pool-death path at a pool of
capacity 1 whose destroyed cache memory reads back empty. -/
theorem C1_release_after_pool_death_touches_pool_memory :
    releaseAfterPoolDeath [] 1 ⟨0, 7⟩ =
      { recycleAttempted := false, resourceDestroyed := true,
        deadCacheAfter := [7], blockFreed := false } := rfl

/-- C2: for every sequence of `allocate()`, Handle-drop and `free_unused()`
operations on a pool constructed with capacity `c`, `unused_resources()`
never returns a value greater than `c`, and the Bookkeeping Cache length
never exceeds `c`. -/
theorem C2_capacity_never_exceeded (c : Nat) (hr : Bool) (ops : List Op) :
    unusedResources (poolAfter c hr ops) ≤ c ∧
      (poolAfter c hr ops).cacheBlocks.length ≤ c := by
  have h := @run_preserve
    (fun s => s.capacity = c ∧ s.freeVector.length ≤ c ∧
      s.cacheBlocks.length ≤ c)
    (fun s op hP => step_bounds c s op hP) ops (initPool c hr)
    ⟨rfl, by simp [initPool], by simp [initPool]⟩
  exact ⟨h.2.1, h.2.2⟩

/-- C7: `free_unused()` empties the Free List and the Bookkeeping Cache
(returning every cached block to the heap), leaves the outstanding Handles
untouched, and `unused_resources()` immediately afterwards returns 0. -/
theorem C7_free_unused_resets (s : PoolState) :
    unusedResources (freeUnusedStep s) = 0 ∧
      (freeUnusedStep s).freeVector = [] ∧
      (freeUnusedStep s).cacheBlocks = [] ∧
      (freeUnusedStep s).live = s.live ∧
      (freeUnusedStep s).freeCalls = s.freeCalls + s.cacheBlocks.length :=
  ⟨rfl, rfl, rfl, rfl, rfl⟩

/-- C9: when the allocation function fails during `allocate()`, the failure
propagates synchronously (`false` result) and the pool state the caller
observes is exactly the state before the call; a Free List hit never
invokes the allocation function at all, and a subsequent `allocate()` with
a succeeding allocation function behaves exactly like the normal path. -/
theorem C9_alloc_failure_safe (s : PoolState) :
    (s.freeVector = [] → allocateStepFallible true s = (s, false)) ∧
      (∀ b : Bool, s.freeVector ≠ [] →
        allocateStepFallible b s = (allocateStep s, true)) ∧
      allocateStepFallible false s = (allocateStep s, true) := by
  refine ⟨?_, ?_, ?_⟩
  · intro h
    simp [allocateStepFallible, h]
  · intro b h
    cases hf : s.freeVector with
    | nil => exact absurd hf h
    | cons r rest => simp [allocateStepFallible, hf]
  · cases hf : s.freeVector with
    | nil => simp [allocateStepFallible, hf]
    | cons r rest => simp [allocateStepFallible, hf]

theorem C9_witness :
    allocateStepFallible true (initPool 1 false) = (initPool 1 false, false) :=
  (C9_alloc_failure_safe (initPool 1 false)).1 rfl

/-- C10: the Free List is LIFO.  When the Free List is non-empty,
`allocate()` pops exactly its back — the most recently recycled, not yet
re-issued resource (`impl::recycle` pushes at the back, lines 304-306, and
`impl::allocate` takes `back()`, lines 241-244; the back is the head of the
model list). -/
theorem C10_free_list_lifo (s : PoolState) (r : Nat) (rest : List Nat)
    (h : s.freeVector = r :: rest) :
    (allocateStep s).live.head?.map Handle.rid = some r ∧
      (allocateStep s).freeVector = rest ∧
      (∀ (s2 : PoolState) (hd : Handle),
        s2.freeVector.length < s2.capacity →
        (releaseStep s2 hd).freeVector = hd.rid :: s2.freeVector) := by
  refine ⟨?_, ?_, ?_⟩
  · cases hc : s.cacheBlocks with
    | nil => rw [allocateStep_of_free_cons_cache_nil s r rest h hc]; rfl
    | cons b brest =>
      rw [allocateStep_of_free_cons_cache_cons s r rest b brest h hc]; rfl
  · cases hc : s.cacheBlocks with
    | nil => rw [allocateStep_of_free_cons_cache_nil s r rest h hc]
    | cons b brest =>
      rw [allocateStep_of_free_cons_cache_cons s r rest b brest h hc]
  · intro s2 hd hlt
    rw [releaseStep_freeVector]
    simp [hlt]

/-- C3: in every reachable pool state, whenever creating a Handle requires
a new bookkeeping block and the Bookkeeping Cache is non-empty, the block
is taken from the cache with no heap allocation; only when the cache is
empty is a block requested from the heap.  (The fresh-resource path of
`allocate` passes `should_take_cached = false` and always calls
`std::malloc`, but by the reachable-state invariant `step_cache_le_free`
the cache is empty whenever the Free List is, so that path never skips a
non-empty cache.)  Symmetrically, on metadata release the block goes back
to the cache when the cache is below capacity, otherwise to the heap. -/
theorem C3_bookkeeping_cache_reuse (c : Nat) (hr : Bool) (ops : List Op) :
    (∀ (b : Nat) (brest : List Nat),
      (poolAfter c hr ops).cacheBlocks = b :: brest →
      (allocateStep (poolAfter c hr ops)).mallocCalls =
        (poolAfter c hr ops).mallocCalls ∧
      (allocateStep (poolAfter c hr ops)).cacheBlocks = brest ∧
      (allocateStep (poolAfter c hr ops)).live.head?.map Handle.bid =
        some b) ∧
    ((poolAfter c hr ops).cacheBlocks = [] →
      (allocateStep (poolAfter c hr ops)).mallocCalls =
        (poolAfter c hr ops).mallocCalls + 1) ∧
    (∀ (s : PoolState) (hd : Handle),
      (s.cacheBlocks.length < s.capacity →
        (releaseStep s hd).cacheBlocks = hd.bid :: s.cacheBlocks ∧
        (releaseStep s hd).freeCalls = s.freeCalls) ∧
      (s.capacity ≤ s.cacheBlocks.length →
        (releaseStep s hd).cacheBlocks = s.cacheBlocks ∧
        (releaseStep s hd).freeCalls = s.freeCalls + 1)) := by
  have hinv : (poolAfter c hr ops).cacheBlocks.length ≤
      (poolAfter c hr ops).freeVector.length :=
    @run_preserve (fun s => s.cacheBlocks.length ≤ s.freeVector.length)
      step_cache_le_free ops (initPool c hr) (by simp [initPool])
  refine ⟨?_, ?_, ?_⟩
  · intro b brest hcb
    cases hf : (poolAfter c hr ops).freeVector with
    | nil =>
      rw [hcb, hf] at hinv
      simp at hinv
    | cons r rest =>
      rw [allocateStep_of_free_cons_cache_cons _ r rest b brest hf hcb]
      exact ⟨rfl, rfl, rfl⟩
  · intro hcb
    cases hf : (poolAfter c hr ops).freeVector with
    | nil => rw [allocateStep_of_free_nil _ hf]
    | cons r rest => rw [allocateStep_of_free_cons_cache_nil _ r rest hf hcb]
  · intro s hd
    constructor
    · intro hlt
      rw [releaseStep_cacheBlocks, releaseStep_freeCalls]
      simp [hlt]
    · intro hge
      have hnlt : ¬ s.cacheBlocks.length < s.capacity := by omega
      rw [releaseStep_cacheBlocks, releaseStep_freeCalls]
      simp [hnlt]

theorem C3_witness :
    (allocateStep (poolAfter 1 true [Op.alloc, Op.drop 0])).mallocCalls =
      (poolAfter 1 true [Op.alloc, Op.drop 0]).mallocCalls :=
  ((C3_bookkeeping_cache_reuse 1 true [Op.alloc, Op.drop 0]).1
    0 [] (by decide)).1

/-- C4: round-trip reuse on a pool with capacity > 0: the first `allocate`
on a fresh pool issues resource 0 through the allocation function; after
its Handle is dropped, a second `allocate` returns the same resource 0 and
the allocation-function invocation count does not change. -/
theorem C4_round_trip (c : Nat) (hr : Bool) (h : 0 < c) :
    (allocateStep (initPool c hr)).live.head?.map Handle.rid = some 0 ∧
      (allocateStep (dropStep (allocateStep (initPool c hr))
        0)).live.head?.map Handle.rid = some 0 ∧
      (allocateStep (dropStep (allocateStep (initPool c hr)) 0)).allocCalls =
        (allocateStep (initPool c hr)).allocCalls := by
  have h1 : allocateStep (initPool c hr) =
      { initPool c hr with live := [⟨0, 0⟩], nextRid := 1, allocCalls := 1,
                           nextBid := 1, mallocCalls := 1 } := by
    rw [allocateStep_of_free_nil (initPool c hr) rfl]
    rfl
  have h2 : dropStep (allocateStep (initPool c hr)) 0 =
      releaseStep { initPool c hr with nextRid := 1, allocCalls := 1,
                                       nextBid := 1, mallocCalls := 1 }
        ⟨0, 0⟩ := by
    rw [h1]
    exact dropStep_zero _ ⟨0, 0⟩ [] rfl
  have hfree2 : (dropStep (allocateStep (initPool c hr)) 0).freeVector =
      [0] := by
    rw [h2, releaseStep_freeVector]
    simp [initPool, h]
  have hcache2 : (dropStep (allocateStep (initPool c hr)) 0).cacheBlocks =
      [0] := by
    rw [h2, releaseStep_cacheBlocks]
    simp [initPool, h]
  have hac2 : (dropStep (allocateStep (initPool c hr)) 0).allocCalls = 1 := by
    rw [h2, releaseStep_allocCalls]
  refine ⟨?_, ?_, ?_⟩
  · rw [h1]; rfl
  · rw [allocateStep_of_free_cons_cache_cons _ 0 [] 0 [] hfree2 hcache2]; rfl
  · rw [allocateStep_of_free_cons_cache_cons _ 0 [] 0 [] hfree2 hcache2]
    dsimp only
    rw [hac2, h1]

theorem C4_witness :
    (allocateStep (initPool 1 false)).live.head?.map Handle.rid = some 0 ∧
      (allocateStep (dropStep (allocateStep (initPool 1 false))
        0)).live.head?.map Handle.rid = some 0 ∧
      (allocateStep (dropStep (allocateStep (initPool 1 false))
        0)).allocCalls = (allocateStep (initPool 1 false)).allocCalls :=
  C4_round_trip 1 false (by decide)

theorem run_alloc_replicate (n : Nat) :
    ∀ s : PoolState, s.freeVector = [] →
      (run s (List.replicate n Op.alloc)).freeVector = [] ∧
      (run s (List.replicate n Op.alloc)).live.length = s.live.length + n ∧
      (run s (List.replicate n Op.alloc)).capacity = s.capacity := by
  induction n with
  | zero => exact fun s h => ⟨h, by simp [run], rfl⟩
  | succ n ih =>
    intro s h
    rw [List.replicate_succ, run_cons]
    have hnext : (step s Op.alloc).freeVector = [] := by
      rw [step, allocateStep_of_free_nil s h]
      exact h
    have hlive : (step s Op.alloc).live.length = s.live.length + 1 := by
      rw [step, allocateStep_of_free_nil s h]
      simp
    obtain ⟨h1, h2, h3⟩ := ih (step s Op.alloc) hnext
    refine ⟨h1, ?_, ?_⟩
    · rw [h2, hlive]; omega
    · rw [h3, step_capacity]

theorem run_drop_replicate :
    ∀ (k : Nat) (s : PoolState), s.freeVector.length ≤ s.capacity →
      k ≤ s.live.length →
      (run s (List.replicate k (Op.drop 0))).freeVector.length =
        min (s.freeVector.length + k) s.capacity := by
  intro k
  induction k with
  | zero =>
    intro s hcap hk
    simp [run]
    omega
  | succ k ih =>
    intro s hcap hk
    rw [List.replicate_succ, run_cons]
    cases hl : s.live with
    | nil => rw [hl] at hk; simp at hk
    | cons hd tl =>
      have hstep : step s (Op.drop 0) =
          releaseStep { s with live := tl } hd := by
        rw [step]
        exact dropStep_zero s hd tl hl
      have hsfv : (step s (Op.drop 0)).freeVector =
          if s.freeVector.length < s.capacity then hd.rid :: s.freeVector
          else s.freeVector := by
        rw [hstep, releaseStep_freeVector]
      have hscap : (step s (Op.drop 0)).capacity = s.capacity :=
        step_capacity s _
      have hslive : (step s (Op.drop 0)).live = tl := by
        rw [hstep, releaseStep_live]
      have hcap2 : (step s (Op.drop 0)).freeVector.length ≤
          (step s (Op.drop 0)).capacity := by
        rw [hsfv, hscap]
        split <;> (try simp only [List.length_cons]) <;> omega
      have hk2 : k ≤ (step s (Op.drop 0)).live.length := by
        rw [hslive]
        rw [hl] at hk
        simp at hk
        omega
      rw [ih (step s (Op.drop 0)) hcap2 hk2, hsfv, hscap]
      split <;> (try simp only [List.length_cons]) <;> omega

/-- C5: starting from a state whose Free List is empty (a fresh pool, or
immediately after `free_unused()`), performing exactly `n` `allocate()`
calls and then dropping all `n` Handles makes `unused_resources()` return
exactly `min n capacity`. -/
theorem C5_unused_equals_min (c n : Nat) (s0 : PoolState)
    (hfree : s0.freeVector = []) (hcap : s0.capacity = c) :
    unusedResources (run s0 (List.replicate n Op.alloc ++
      List.replicate n (Op.drop 0))) = min n c := by
  rw [run_append]
  obtain ⟨h1, h2, h3⟩ := run_alloc_replicate n s0 hfree
  have h4 := run_drop_replicate n (run s0 (List.replicate n Op.alloc))
    (by rw [h1]; simp) (by rw [h2]; omega)
  rw [unusedResources, h4, h1, h3, hcap]
  simp

theorem C5_witness :
    unusedResources (run (initPool 2 false) (List.replicate 3 Op.alloc ++
      List.replicate 3 (Op.drop 0))) = min 3 2 :=
  C5_unused_equals_min 2 3 (initPool 2 false) rfl rfl

/-- C6: with a recycle function supplied, it is invoked exactly once per
Handle at the moment its last owning reference is dropped, before and
independently of the capacity check — so after any operation sequence the
invocation counter equals the number of Handles fully released, and a
single release always increments both by exactly one, even when the Free
List is full. -/
theorem C6_recycle_once_per_release (c : Nat) (ops : List Op) :
    (poolAfter c true ops).recycleCalls =
      (poolAfter c true ops).releasedHandles ∧
      (∀ (s : PoolState) (hd : Handle), s.hasRecycle = true →
        (releaseStep s hd).recycleCalls = s.recycleCalls + 1 ∧
        (releaseStep s hd).releasedHandles = s.releasedHandles + 1) := by
  constructor
  · exact (@run_preserve
      (fun s => s.hasRecycle = true ∧ s.recycleCalls = s.releasedHandles)
      step_recycle_counter ops (initPool c true) ⟨rfl, rfl⟩).2
  · intro s hd hr
    exact ⟨releaseStep_recycleCalls_of_hasRecycle s hd hr,
      releaseStep_releasedHandles s hd⟩

theorem C6_witness :
    (releaseStep (initPool 0 true) ⟨0, 0⟩).recycleCalls =
      (initPool 0 true).recycleCalls + 1 :=
  ((C6_recycle_once_per_release 0 []).2 (initPool 0 true) ⟨0, 0⟩ rfl).1

/-- An explicit concrete pool state with `2 ^ 32` idle resources (reachable
with capacity `2 ^ 32` after `2 ^ 32` allocate/drop pairs), on which the
copy constructor's `uint32_t` truncation shows. -/
def c8Bad : PoolState :=
  { initPool (2 ^ 32) false with freeVector := List.replicate (2 ^ 32) 0 }

/-- C8 counterexample: the claim says copying a pool whose idle-resource
count is `n` invokes the allocation function exactly `n` times and the
copy's `unused_resources()` equals the original's.  The copy constructor
reads the count into a `uint32_t` (line 188), so for a pool with `2 ^ 32`
idle resources it invokes the allocation function 0 times and the copy has
0 idle resources. -/
theorem copyImpl_unusedResources (s : PoolState) :
    unusedResources (copyImpl s) = unusedResources s % 2 ^ 32 := by
  simp [copyImpl, unusedResources]

theorem copyImpl_allocCalls (s : PoolState) :
    (copyImpl s).allocCalls = unusedResources s % 2 ^ 32 := rfl

theorem C8_copy_counterexample :
    unusedResources c8Bad = 2 ^ 32 ∧
      (copyImpl c8Bad).allocCalls = 0 ∧
      unusedResources (copyImpl c8Bad) = 0 ∧
      (copyImpl c8Bad).allocCalls ≠ unusedResources c8Bad := by
  have hfv : c8Bad.freeVector = List.replicate (2 ^ 32) 0 := rfl
  have hu : unusedResources c8Bad = 2 ^ 32 := by
    show c8Bad.freeVector.length = 2 ^ 32
    rw [hfv, List.length_replicate]
  have ha : (copyImpl c8Bad).allocCalls = 0 := by
    rw [copyImpl_allocCalls, hu]
    exact Nat.mod_self _
  have hu2 : unusedResources (copyImpl c8Bad) = 0 := by
    rw [copyImpl_unusedResources, hu]
    exact Nat.mod_self _
  refine ⟨hu, ha, hu2, ?_⟩
  rw [ha, hu]
  decide

/-- C8 (amended): copying a pool whose idle-resource count is `n` invokes
the allocation function exactly `n mod 2 ^ 32` times to populate the
copy's Free List, and the copy's `unused_resources()` equals `n mod 2 ^ 32`
(hence equals the original's whenever `n < 2 ^ 32`); the copy starts with
an empty Bookkeeping Cache and no outstanding Handles, and is a fully
separate state sharing nothing mutable with the original. -/
theorem C8_copy_amended (s : PoolState) :
    (copyImpl s).allocCalls = unusedResources s % 2 ^ 32 ∧
      unusedResources (copyImpl s) = unusedResources s % 2 ^ 32 ∧
      (copyImpl s).cacheBlocks = [] ∧
      (copyImpl s).live = [] ∧
      (copyImpl s).capacity = s.capacity ∧
      (unusedResources s < 2 ^ 32 →
        (copyImpl s).allocCalls = unusedResources s ∧
        unusedResources (copyImpl s) = unusedResources s) := by
  have h2 : unusedResources (copyImpl s) = unusedResources s % 2 ^ 32 :=
    copyImpl_unusedResources s
  refine ⟨rfl, h2, rfl, rfl, rfl, fun hlt => ⟨?_, ?_⟩⟩
  · show unusedResources s % 2 ^ 32 = unusedResources s
    exact Nat.mod_eq_of_lt hlt
  · rw [h2]
    exact Nat.mod_eq_of_lt hlt

theorem C8_witness :
    (copyImpl { initPool 3 false with freeVector := [9, 8] }).allocCalls =
      unusedResources { initPool 3 false with freeVector := [9, 8] } ∧
      unusedResources
        (copyImpl { initPool 3 false with freeVector := [9, 8] }) =
      unusedResources { initPool 3 false with freeVector := [9, 8] } :=
  (C8_copy_amended { initPool 3 false with
    freeVector := [9, 8] }).2.2.2.2.2 (by decide)

theorem C10_witness :
    (allocateStep { initPool 2 false with
      freeVector := [5, 4] }).live.head?.map Handle.rid = some 5 ∧
      (releaseStep (initPool 3 false) ⟨9, 0⟩).freeVector = [9] :=
  ⟨(C10_free_list_lifo { initPool 2 false with freeVector := [5, 4] }
      5 [4] rfl).1,
   (C10_free_list_lifo { initPool 2 false with freeVector := [5, 4] }
      5 [4] rfl).2.2 (initPool 3 false) ⟨9, 0⟩ (by decide)⟩

end Recycle
